/-
Verification of the layer-normalization orchestration core
(`aten/src/ATen/native/layer_norm.cpp`) against its natural-language
specification.

The C++ source is shallowly embedded: tensors are a shape (list of
dimension sizes) together with a flat row-major list of rational entries
and a contiguity flag.  Observable effects of a call (copies to
contiguous storage, buffer allocations, kernel and collaborator
invocations) are recorded as an explicit event trace, so that claims
about *when* an error is raised or a kernel is invoked can be stated.

The external numeric kernels and the batch-norm collaborator are not
part of the source file; they are modelled from the specification's
interface contracts (§4.3, §6), parametrised by an abstract inverse
square root `rsqrt` (floating-point details are out of scope, exact
rational arithmetic is used).  Uninitialised allocations are modelled by
filling with an arbitrary quantity `uninit`, universally quantified in
every theorem, so nothing can be proved about contents the code never
writes.
-/
import Mathlib

namespace LayerNorm

/-- A tensor shape: the ordered list of dimension sizes. -/
abbrev Shape := List Nat

/-- A dense tensor: shape metadata, flat row-major data, and a
contiguity flag (`expect_contiguous` copies exactly when the flag is
false). -/
structure Tensor where
  shape : Shape
  data : List ℚ
  isContig : Bool
  deriving DecidableEq, Repr

/-- Observable effects of a call, in program order. -/
inductive Event where
  /-- `expect_contiguous` made a fresh contiguous copy of its argument. -/
  | copyContiguous : Event
  /-- A buffer allocation; `zeroed` records whether it was `zeros_like`
  (true) or uninitialised `empty` / `empty_like` (false). -/
  | alloc (zeroed : Bool) : Event
  /-- The external forward numeric kernel (`LayerNormKernel`) ran. -/
  | forwardKernel : Event
  /-- The external backward numeric kernel (`LayerNormBackwardKernel`) ran. -/
  | backwardKernel : Event
  /-- The batch-normalization collaborator (`at::native_batch_norm`) ran. -/
  | batchNormCall : Event
  deriving DecidableEq, Repr

/-- Errors of the core: `invalidShape` from shape validation,
`invalidReshape` from a `view` whose inferred dimension is undefined,
`undefinedTensor` from dereferencing an absent optional tensor. -/
inductive LNError where
  | invalidShape : LNError
  | invalidReshape : LNError
  | undefinedTensor : LNError
  deriving DecidableEq, Repr

/-- Number of elements of a shape. -/
def numel (s : Shape) : Nat := s.prod

/-- `Tensor::expect_contiguous`: borrow when already contiguous,
otherwise produce a contiguous copy (same logical shape and data),
recording the copy. -/
def expect_contiguous (t : Tensor) : Tensor × List Event :=
  if t.isContig then (t, [])
  else (⟨t.shape, t.data, true⟩, [Event.copyContiguous])

/-- `expect_contiguous` on a borrowed optional tensor: absent tensors
are passed through untouched (no dereference, no copy). -/
def optExpectContiguous (t : Option Tensor) : Option Tensor × List Event :=
  match t with
  | none => (none, [])
  | some u =>
    let p := expect_contiguous u
    (some p.1, p.2)

/-- `at::empty` / `at::native::empty_like`: an uninitialised buffer of
the given shape; its contents are the allocator default `uninit`. -/
def emptyT (uninit : ℚ) (s : Shape) : Tensor :=
  ⟨s, List.replicate (numel s) uninit, true⟩

/-- `at::native::zeros_like`: a zero-filled buffer of the given shape. -/
def zerosT (s : Shape) : Tensor :=
  ⟨s, List.replicate (numel s) 0, true⟩

/-- Metadata-only reshape (`Tensor::view` with an explicit target
shape): same data, new shape. -/
def Tensor.view (t : Tensor) (s : Shape) : Tensor :=
  ⟨s, t.data, t.isContig⟩

/-- Flat read of element `k` (reads the code performs are always in
range; the default is never observable under well-formed use). -/
def elemAt (t : Tensor) (k : Nat) : ℚ := t.data.getD k 0

/-- Broadcast read: a tensor whose shape is a trailing suffix of the
indexed shape is addressed by the flat index modulo its element count. -/
def broadcastAt (t : Tensor) (k : Nat) : ℚ := elemAt t (k % numel t.shape)

/-- Does an optional scale/bias tensor have exactly the normalized
shape (vacuously true when absent)? -/
def shapeMatches (t : Option Tensor) (ns : Shape) : Bool :=
  match t with
  | none => true
  | some w => w.shape == ns

/-- Modelled from the spec: `_check_layer_norm_inputs` lives outside
this source file; per §4.1/§6 it verifies that NormalizedShape is a
contiguous trailing suffix of the input shape and that scale/bias, when
present, have exactly NormalizedShape, failing with `InvalidShape`
otherwise, and returns `(M, N)` where, with
`axis = rank - len(NormalizedShape)`, `M = prod(shape[0:axis])` and
`N = prod(shape[axis:])`. -/
def check_layer_norm_inputs (inputShape ns : Shape) (weight bias : Option Tensor) :
    Except LNError (Nat × Nat) :=
  if decide (ns.length ≤ inputShape.length)
      && (inputShape.drop (inputShape.length - ns.length) == ns)
      && shapeMatches weight ns
      && shapeMatches bias ns then
    Except.ok ((inputShape.take (inputShape.length - ns.length)).prod,
      (inputShape.drop (inputShape.length - ns.length)).prod)
  else
    Except.error LNError.invalidShape

/-- The `i`-th normalization group: `N` consecutive elements starting
at `i * N` of the flat data. -/
def groupRow (d : List ℚ) (N i : Nat) : List ℚ := (d.drop (i * N)).take N

/-- Mean of the `i`-th group of `N` elements. -/
def rowMean (d : List ℚ) (N i : Nat) : ℚ := (groupRow d N i).sum / (N : ℚ)

/-- Population variance (divide by `N`, not `N - 1`) of the `i`-th
group. -/
def rowVar (d : List ℚ) (N i : Nat) : ℚ :=
  ((groupRow d N i).map (fun x => (x - rowMean d N i) ^ 2)).sum / (N : ℚ)

/-- Per-element scale: read from `gamma` when present, elementwise 1
when absent. -/
def scaleAt (gamma : Option Tensor) (j : Nat) : ℚ :=
  match gamma with
  | some g => elemAt g j
  | none => 1

/-- Per-element shift: read from `beta` when present, elementwise 0
when absent. -/
def biasAt (beta : Option Tensor) (j : Nat) : ℚ :=
  match beta with
  | some b => elemAt b j
  | none => 0

/-- Modelled from the spec: the external forward numeric kernel
(`LayerNormKernel`, §4.3/§6) is outside this source file.  For each
group `i < M`: `mean[i]` is the average of its `N` elements, `rstd[i]`
is `rsqrt(var + eps)` with population variance, and
`out[i,j] = (x[i,j] - mean[i]) * rstd[i] * scale[j] + bias[j]` with
scale/bias defaulting to 1/0 when absent.  `rsqrt` abstracts the
inverse square root. -/
def LayerNormKernel (rsqrt : ℚ → ℚ) (X : Tensor) (gamma beta : Option Tensor)
    (M N : Nat) (eps : ℚ) : Tensor × Tensor × Tensor :=
  (⟨X.shape,
    (List.range (M * N)).map (fun k =>
      (elemAt X k - rowMean X.data N (k / N)) * rsqrt (rowVar X.data N (k / N) + eps)
        * scaleAt gamma (k % N) + biasAt beta (k % N)),
    true⟩,
   ⟨[M], (List.range M).map (fun i => rowMean X.data N i), true⟩,
   ⟨[M], (List.range M).map (fun i => rsqrt (rowVar X.data N i + eps)), true⟩)

/-- The broadcastable statistic shape built by the two `irange` loops:
`input_shape[0:axis]` followed by one singleton per remaining
dimension, where `axis = rank - len(NormalizedShape)`. -/
def statShape (inputShape : Shape) (nsLen : Nat) : Shape :=
  inputShape.take (inputShape.length - nsLen)
    ++ List.replicate (inputShape.length - (inputShape.length - nsLen)) 1

/-- `layer_norm_impl_out`: early return when `M <= 0` (buffers are
handed back untouched, statistics keep their flat length-`M` shape);
otherwise run the forward kernel once and view the statistics to the
broadcastable `stat_shape`. -/
def layer_norm_impl_out (rsqrt : ℚ → ℚ) (out mean rstd : Tensor) (input : Tensor)
    (normalized_shape : Shape) (gamma beta : Option Tensor) (eps : ℚ) (M N : Nat) :
    (Tensor × Tensor × Tensor) × List Event :=
  if M ≤ 0 then ((out, mean, rstd), [])
  else
    let k := LayerNormKernel rsqrt input gamma beta M N eps
    ((k.1,
      Tensor.view k.2.1 (statShape input.shape normalized_shape.length),
      Tensor.view k.2.2 (statShape input.shape normalized_shape.length)),
     [Event.forwardKernel])

/-- `layer_init`: make the input contiguous (before validation, as in
the source), validate shapes, make scale/bias contiguous, and allocate
the flat length-`M` statistic buffers. -/
def layer_init (uninit : ℚ) (input : Tensor) (normalized_shape : Shape)
    (weight bias : Option Tensor) :
    Except LNError (Tensor × Nat × Nat × Option Tensor × Option Tensor × Tensor × Tensor)
      × List Event :=
  let pX := expect_contiguous input
  match check_layer_norm_inputs input.shape normalized_shape weight bias with
  | Except.error e => (Except.error e, pX.2)
  | Except.ok (M, N) =>
    let pg := optExpectContiguous weight
    let pb := optExpectContiguous bias
    (Except.ok (pX.1, M, N, pg.1, pb.1, emptyT uninit [M], emptyT uninit [M]),
     pX.2 ++ pg.2 ++ pb.2 ++ [Event.alloc false, Event.alloc false])

/-- `_layer_norm` (the native forward operation): `layer_init`, then an
uninitialised contiguous output buffer, then `layer_norm_impl_out`. -/
def _layer_norm (rsqrt : ℚ → ℚ) (uninit : ℚ) (input : Tensor)
    (normalized_shape : Shape) (weight bias : Option Tensor) (eps : ℚ) :
    Except LNError (Tensor × Tensor × Tensor) × List Event :=
  match layer_init uninit input normalized_shape weight bias with
  | (Except.error e, tr) => (Except.error e, tr)
  | (Except.ok (X, M, N, gamma, beta, mean, rstd), tr) =>
    let Y := emptyT uninit X.shape
    let r := layer_norm_impl_out rsqrt Y mean rstd X normalized_shape gamma beta eps M N
    (Except.ok r.1, tr ++ [Event.alloc false] ++ r.2)

/-- `layer_norm_new`: first element of the native forward result. -/
def layer_norm_new (rsqrt : ℚ → ℚ) (uninit : ℚ) (input : Tensor)
    (normalized_shape : Shape) (weight bias : Option Tensor) (eps : ℚ) :
    Except LNError Tensor × List Event :=
  let r := _layer_norm rsqrt uninit input normalized_shape weight bias eps
  (r.1.map (fun t => t.1), r.2)

/-- Public `layer_norm` entry point: its trailing boolean
(`cudnn_enable`, deprecated) is unnamed and unused in the source; the
result is the first element of the native forward result. -/
def layer_norm (rsqrt : ℚ → ℚ) (uninit : ℚ) (input : Tensor)
    (normalized_shape : Shape) (weight bias : Option Tensor) (eps : ℚ)
    (cudnn_enable : Bool) : Except LNError Tensor × List Event :=
  let r := _layer_norm rsqrt uninit input normalized_shape weight bias eps
  (r.1.map (fun t => t.1), r.2)

/-- Fill a gradient buffer: same shape, data produced by the abstract
per-element valuation `g` (gradient formulas are the kernel's concern,
outside this core). -/
def fillBuf (g : Nat → ℚ) (t : Tensor) : Tensor :=
  ⟨t.shape, (List.range (numel t.shape)).map g, true⟩

/-- Modelled from the spec: the external backward numeric kernel
(`LayerNormBackwardKernel`, §6) is outside this source file.  It fills
exactly the provided non-absent buffers, deterministically; its
gradient formulas are abstracted by the valuation `bval` (buffer index,
flat element index). -/
def LayerNormBackwardKernel (bval : Nat → Nat → ℚ) (dY X mean rstd : Tensor)
    (gamma : Option Tensor) (M N : Nat) (dX dgamma dbeta : Option Tensor) :
    Option Tensor × Option Tensor × Option Tensor :=
  (dX.map (fillBuf (bval 0)), dgamma.map (fillBuf (bval 1)), dbeta.map (fillBuf (bval 2)))

/-- Allocation of a reduced gradient (`dgamma` / `dbeta`): when the
mask flag is set, dereference the (contiguous) parameter and allocate
`empty_like` when `M > 0`, `zeros_like` when `M <= 0`; a set flag with
an absent parameter dereferences an undefined tensor. -/
def allocReducedGrad (uninit : ℚ) (flag : Bool) (src : Option Tensor) (M : Nat) :
    Except LNError (Option Tensor) × List Event :=
  if flag then
    match src with
    | none => (Except.error LNError.undefinedTensor, [])
    | some g =>
      if 0 < M then (Except.ok (some (emptyT uninit g.shape)), [Event.alloc false])
      else (Except.ok (some (zerosT g.shape)), [Event.alloc true])
  else (Except.ok none, [])

/-- `layer_norm_backward`: validate, make input and scale/bias
contiguous, allocate exactly the masked gradient buffers (`dX` always
`empty_like`; `dgamma`/`dbeta` `empty_like` when `M > 0` and
`zeros_like` when `M <= 0`), and invoke the backward kernel once iff
`M > 0`. -/
def layer_norm_backward (bval : Nat → Nat → ℚ) (uninit : ℚ) (dY input : Tensor)
    (normalized_shape : Shape) (mean rstd : Tensor) (weight bias : Option Tensor)
    (grad_input_mask : Bool × Bool × Bool) :
    Except LNError (Option Tensor × Option Tensor × Option Tensor) × List Event :=
  match check_layer_norm_inputs input.shape normalized_shape weight bias with
  | Except.error e => (Except.error e, [])
  | Except.ok (M, N) =>
    let pX := expect_contiguous input
    let pg := optExpectContiguous weight
    let pb := optExpectContiguous bias
    let pdX : Option Tensor × List Event :=
      if grad_input_mask.1 then (some (emptyT uninit pX.1.shape), [Event.alloc false])
      else (none, [])
    match allocReducedGrad uninit grad_input_mask.2.1 pg.1 M with
    | (Except.error e, tg) => (Except.error e, pX.2 ++ pg.2 ++ pb.2 ++ pdX.2 ++ tg)
    | (Except.ok dgamma, tg) =>
      match allocReducedGrad uninit grad_input_mask.2.2 pb.1 M with
      | (Except.error e, tb) => (Except.error e, pX.2 ++ pg.2 ++ pb.2 ++ pdX.2 ++ tg ++ tb)
      | (Except.ok dbeta, tb) =>
        if 0 < M then
          (Except.ok (LayerNormBackwardKernel bval dY pX.1 mean rstd pg.1 M N
              pdX.1 dgamma dbeta),
           pX.2 ++ pg.2 ++ pb.2 ++ pdX.2 ++ tg ++ tb ++ [Event.backwardKernel])
        else
          (Except.ok (pdX.1, dgamma, dbeta), pX.2 ++ pg.2 ++ pb.2 ++ pdX.2 ++ tg ++ tb)

/-- `Tensor::view({1, M, -1})`: the inferred last dimension is the
element count divided by `M`; inference fails (a reshape error) when
`M == 0` or when the element count is not divisible by `M`. -/
def viewInfer3 (t : Tensor) (M : Nat) : Option Shape :=
  if M ≠ 0 ∧ numel t.shape % M = 0 then some [1, M, numel t.shape / M]
  else none

/-- Modelled from the spec: the batch-normalization collaborator
(`at::native_batch_norm`, §6), used only on a `{1, M, N}` view with `M`
as the channel dimension, in training mode with no running statistics
and no affine parameters: per-channel mean and `rsqrt(var + eps)` with
population variance over each channel's `N` contiguous elements, and
the normalized output. -/
def native_batch_norm (rsqrt : ℚ → ℚ) (x : Tensor) (eps : ℚ) :
    Tensor × Tensor × Tensor :=
  let C := x.shape.getD 1 0
  let n := x.shape.getD 2 0
  (⟨x.shape,
    (List.range (C * n)).map (fun k =>
      (elemAt x k - rowMean x.data n (k / n)) * rsqrt (rowVar x.data n (k / n) + eps)),
    true⟩,
   ⟨[C], (List.range C).map (fun i => rowMean x.data n i), true⟩,
   ⟨[C], (List.range C).map (fun i => rsqrt (rowVar x.data n i + eps)), true⟩)

/-- `bias.addcmul(out, weight, 1)`: elementwise `bias + out * weight`
with `bias`/`weight` broadcast against `out`'s shape. -/
def addcmulT (b out w : Tensor) : Tensor :=
  ⟨out.shape,
   (List.range (numel out.shape)).map (fun k =>
     broadcastAt b k + elemAt out k * broadcastAt w k),
   true⟩

/-- `out.mul(weight)`: elementwise product with broadcasting. -/
def mulT (out w : Tensor) : Tensor :=
  ⟨out.shape,
   (List.range (numel out.shape)).map (fun k => elemAt out k * broadcastAt w k),
   true⟩

/-- `out.add(bias)`: elementwise sum with broadcasting. -/
def addT (out b : Tensor) : Tensor :=
  ⟨out.shape,
   (List.range (numel out.shape)).map (fun k => elemAt out k + broadcastAt b k),
   true⟩

/-- `math_native_layer_norm` (the BatchNormFallback path): validate,
make input and scale contiguous, view the input as `{1, M, -1}` (no
degenerate-batch short-circuit), run the batch-norm collaborator, view
the output back to the input shape, apply the three-way affine branch,
and view the statistics to the broadcastable shape. -/
def math_native_layer_norm (rsqrt : ℚ → ℚ) (input : Tensor)
    (normalized_shape : Shape) (weight bias : Option Tensor) (eps : ℚ) :
    Except LNError (Tensor × Tensor × Tensor) × List Event :=
  match check_layer_norm_inputs input.shape normalized_shape weight bias with
  | Except.error e => (Except.error e, [])
  | Except.ok (M, _N) =>
    let pX := expect_contiguous input
    let pg := optExpectContiguous weight
    match viewInfer3 input M with
    | none => (Except.error LNError.invalidReshape, pX.2 ++ pg.2)
    | some rshape =>
      let input_reshaped := Tensor.view input rshape
      let outs := native_batch_norm rsqrt input_reshaped eps
      let out0 := Tensor.view outs.1 input.shape
      let out :=
        match weight, bias with
        | some w, some b => addcmulT b out0 w
        | some w, none => mulT out0 w
        | none, some b => addT out0 b
        | none, none => out0
      (Except.ok (out,
        Tensor.view outs.2.1 (statShape input.shape normalized_shape.length),
        Tensor.view outs.2.2 (statShape input.shape normalized_shape.length)),
       pX.2 ++ pg.2 ++ [Event.batchNormCall])

end LayerNorm

deriving instance DecidableEq for Except

namespace LayerNorm

theorem expect_contiguous_shape (t : Tensor) : (expect_contiguous t).1.shape = t.shape := by
  unfold expect_contiguous
  split <;> rfl

theorem expect_contiguous_data (t : Tensor) : (expect_contiguous t).1.data = t.data := by
  unfold expect_contiguous
  split <;> rfl

theorem expect_contiguous_events (t : Tensor) :
    ∀ e ∈ (expect_contiguous t).2, e = Event.copyContiguous := by
  unfold expect_contiguous
  split <;> simp

theorem optExpectContiguous_events (t : Option Tensor) :
    ∀ e ∈ (optExpectContiguous t).2, e = Event.copyContiguous := by
  cases t with
  | none => simp [optExpectContiguous]
  | some u =>
    intro e he
    exact expect_contiguous_events u e he

theorem optExpectContiguous_isSome (t : Option Tensor) :
    ((optExpectContiguous t).1).isSome = t.isSome := by
  cases t with
  | none => rfl
  | some u => rfl

theorem optExpectContiguous_some (u : Tensor) :
    (optExpectContiguous (some u)).1 = some (expect_contiguous u).1 := rfl

theorem shapeMatches_some {w : Tensor} {ns : Shape}
    (h : shapeMatches (some w) ns = true) : w.shape = ns := by
  simpa [shapeMatches] using h

/-- Inversion of a successful shape validation. -/
theorem check_ok_inv {s ns : Shape} {w b : Option Tensor} {M N : Nat}
    (h : check_layer_norm_inputs s ns w b = Except.ok (M, N)) :
    ns.length ≤ s.length ∧ s.drop (s.length - ns.length) = ns
      ∧ M = (s.take (s.length - ns.length)).prod
      ∧ N = (s.drop (s.length - ns.length)).prod
      ∧ shapeMatches w ns = true ∧ shapeMatches b ns = true := by
  unfold check_layer_norm_inputs at h
  split at h
  · next hc =>
    simp only [Bool.and_eq_true, decide_eq_true_eq, beq_iff_eq] at hc
    obtain ⟨⟨⟨h1, h2⟩, h3⟩, h4⟩ := hc
    simp only [Except.ok.injEq, Prod.mk.injEq] at h
    exact ⟨h1, h2, h.1.symm, h.2.symm, h3, h4⟩
  · exact absurd h (by simp)

/-- On a valid call the outer and inner counts multiply to the element
count of the input. -/
theorem check_ok_mul {s ns : Shape} {w b : Option Tensor} {M N : Nat}
    (h : check_layer_norm_inputs s ns w b = Except.ok (M, N)) :
    M * N = numel s := by
  obtain ⟨-, -, hM, hN, -, -⟩ := check_ok_inv h
  rw [hM, hN, numel]
  exact List.prod_take_mul_prod_drop s (s.length - ns.length)

/-- On a valid call the normalized shape's element count is `N`. -/
theorem check_ok_nsprod {s ns : Shape} {w b : Option Tensor} {M N : Nat}
    (h : check_layer_norm_inputs s ns w b = Except.ok (M, N)) :
    ns.prod = N := by
  obtain ⟨-, h2, -, hN, -, -⟩ := check_ok_inv h
  rw [hN]
  exact (congrArg List.prod h2).symm

theorem getD_range_map (f : Nat → ℚ) (n k : Nat) (d : ℚ) (h : k < n) :
    ((List.range n).map f).getD k d = f k := by
  rw [List.getD_eq_getElem?_getD, List.getElem?_map, List.getElem?_range h]
  rfl

/-- Characterization of the forward operation on a validated call. -/
theorem _layer_norm_ok_eq (rsqrt : ℚ → ℚ) (uninit : ℚ) (input : Tensor)
    (ns : Shape) (weight bias : Option Tensor) (eps : ℚ) (M N : Nat)
    (hck : check_layer_norm_inputs input.shape ns weight bias = Except.ok (M, N)) :
    _layer_norm rsqrt uninit input ns weight bias eps
      = (Except.ok (layer_norm_impl_out rsqrt
            (emptyT uninit (expect_contiguous input).1.shape)
            (emptyT uninit [M]) (emptyT uninit [M]) (expect_contiguous input).1 ns
            (optExpectContiguous weight).1 (optExpectContiguous bias).1 eps M N).1,
         (expect_contiguous input).2 ++ (optExpectContiguous weight).2
           ++ (optExpectContiguous bias).2 ++ [Event.alloc false, Event.alloc false]
           ++ [Event.alloc false]
           ++ (layer_norm_impl_out rsqrt
                (emptyT uninit (expect_contiguous input).1.shape)
                (emptyT uninit [M]) (emptyT uninit [M]) (expect_contiguous input).1 ns
                (optExpectContiguous weight).1 (optExpectContiguous bias).1 eps M N).2) := by
  unfold _layer_norm layer_init
  rw [hck]

/-- Characterization of the forward operation on a call failing
validation. -/
theorem _layer_norm_error_eq (rsqrt : ℚ → ℚ) (uninit : ℚ) (input : Tensor)
    (ns : Shape) (weight bias : Option Tensor) (eps : ℚ) (e : LNError)
    (hck : check_layer_norm_inputs input.shape ns weight bias = Except.error e) :
    _layer_norm rsqrt uninit input ns weight bias eps
      = (Except.error e, (expect_contiguous input).2) := by
  unfold _layer_norm layer_init
  rw [hck]

/-- **C1** (counterexample): on input shape `[0, 2]` with
NormalizedShape `[2]` the call is valid with `M = 0`, yet the returned
mean and rstd have the flat shape `[0]`, not the broadcastable
statistic shape `[0, 1]` that the claim asserts for the degenerate case
as well. -/
theorem C1_cex :
    check_layer_norm_inputs [0, 2] [2] none none = Except.ok (0, 2)
    ∧ ((_layer_norm (fun q => q) 0 ⟨[0, 2], [], true⟩ [2] none none 1).1.map
        (fun r => (r.2.1.shape, r.2.2.shape))) = Except.ok ([0], [0])
    ∧ statShape [0, 2] 1 = [0, 1]
    ∧ ([0] : Shape) ≠ [0, 1] := by decide

/-- **C1** (amended): on every valid forward call the returned mean and
rstd have the broadcastable statistic shape (leading dimensions
followed by singletons) whenever `M > 0`; in the degenerate case
`M = 0` they instead keep the flat length-0 shape `[0]`. -/
theorem C1_thm (rsqrt : ℚ → ℚ) (uninit : ℚ) (input : Tensor) (ns : Shape)
    (weight bias : Option Tensor) (eps : ℚ) (M N : Nat)
    (hck : check_layer_norm_inputs input.shape ns weight bias = Except.ok (M, N)) :
    ∃ out mean rstd tr,
      _layer_norm rsqrt uninit input ns weight bias eps
        = (Except.ok (out, mean, rstd), tr)
      ∧ (0 < M → mean.shape = statShape input.shape ns.length
          ∧ rstd.shape = statShape input.shape ns.length)
      ∧ (M = 0 → mean.shape = [0] ∧ rstd.shape = [0]) := by
  rw [_layer_norm_ok_eq rsqrt uninit input ns weight bias eps M N hck]
  by_cases hM : M ≤ 0
  · have hM0 : M = 0 := Nat.le_zero.mp hM
    subst hM0
    refine ⟨_, _, _, _, rfl, fun h => absurd h (by simp), fun _ => ?_⟩
    simp [layer_norm_impl_out, emptyT]
  · have hne : ¬M = 0 := by omega
    refine ⟨_, _, _, _, rfl, fun _ => ?_, fun h => absurd h hne⟩
    simp [layer_norm_impl_out, hne, Tensor.view, expect_contiguous_shape]

/-- Witness for C1: a concrete valid call with `M = 2 > 0` whose
statistics get the broadcastable shape `[2, 1]`. -/
theorem C1_thm_witness :
    check_layer_norm_inputs [2, 3] [3] none none = Except.ok (2, 3)
    ∧ (∃ out mean rstd tr,
        _layer_norm (fun q => q) 0 ⟨[2, 3], [1, 2, 3, 4, 5, 6], true⟩ [3] none none 1
          = (Except.ok (out, mean, rstd), tr)
        ∧ (0 < 2 → mean.shape = statShape [2, 3] 1 ∧ rstd.shape = statShape [2, 3] 1)
        ∧ (2 = 0 → mean.shape = [0] ∧ rstd.shape = [0])) :=
  ⟨by decide,
   C1_thm (fun q => q) 0 ⟨[2, 3], [1, 2, 3, 4, 5, 6], true⟩ [3] none none 1 2 3 (by decide)⟩

/-- **C3** (counterexample): on a non-contiguous input whose
NormalizedShape fails validation, the forward operation copies the
input to contiguous storage *before* raising `InvalidShape` — the
recorded copy event precedes the error, contradicting the claim that
the error precedes any copy-to-contiguous. -/
theorem C3_cex :
    _layer_norm (fun q => q) 0 ⟨[2], [1, 2], false⟩ [3] none none 1
      = (Except.error LNError.invalidShape, [Event.copyContiguous]) := by decide

/-- **C3** (amended): when shape validation fails, the forward
operation raises `InvalidShape` synchronously, before any buffer
allocation and before any kernel invocation; the only effect that may
precede the error is the copy making the input contiguous. -/
theorem C3_thm (rsqrt : ℚ → ℚ) (uninit : ℚ) (input : Tensor) (ns : Shape)
    (weight bias : Option Tensor) (eps : ℚ)
    (hck : check_layer_norm_inputs input.shape ns weight bias
      = Except.error LNError.invalidShape) :
    _layer_norm rsqrt uninit input ns weight bias eps
      = (Except.error LNError.invalidShape, (expect_contiguous input).2)
    ∧ ∀ e ∈ (expect_contiguous input).2, e = Event.copyContiguous :=
  ⟨_layer_norm_error_eq rsqrt uninit input ns weight bias eps LNError.invalidShape hck,
   expect_contiguous_events input⟩

/-- Witness for C3: a concrete invalid call whose whole trace is the
single contiguity copy. -/
theorem C3_thm_witness :
    check_layer_norm_inputs [2] [3] none none = Except.error LNError.invalidShape
    ∧ (_layer_norm (fun q => q) 0 ⟨[2], [2, 7], false⟩ [3] none none 1
        = (Except.error LNError.invalidShape, (expect_contiguous ⟨[2], [2, 7], false⟩).2)
      ∧ ∀ e ∈ (expect_contiguous (⟨[2], [2, 7], false⟩ : Tensor)).2,
          e = Event.copyContiguous) :=
  ⟨by decide, C3_thm (fun q => q) 0 ⟨[2], [2, 7], false⟩ [3] none none 1 (by decide)⟩

/-- **C6** (confirmed): a valid forward call with `M <= 0` returns
successfully with a zero-element output of the input's shape and empty
flat statistics, raises no error, and never invokes the forward
kernel. -/
theorem C6_thm (rsqrt : ℚ → ℚ) (uninit : ℚ) (input : Tensor) (ns : Shape)
    (weight bias : Option Tensor) (eps : ℚ) (M N : Nat)
    (hck : check_layer_norm_inputs input.shape ns weight bias = Except.ok (M, N))
    (hM : M ≤ 0) :
    ∃ Y mean rstd tr,
      _layer_norm rsqrt uninit input ns weight bias eps
        = (Except.ok (Y, mean, rstd), tr)
      ∧ Y.shape = input.shape ∧ Y.data = []
      ∧ mean.shape = [0] ∧ mean.data = []
      ∧ rstd.shape = [0] ∧ rstd.data = []
      ∧ Event.forwardKernel ∉ tr := by
  have hM0 : M = 0 := Nat.le_zero.mp hM
  subst hM0
  have hnum : numel input.shape = 0 := by
    have := check_ok_mul hck
    omega
  rw [_layer_norm_ok_eq rsqrt uninit input ns weight bias eps 0 N hck]
  refine ⟨_, _, _, _, rfl, ?_, ?_, ?_, ?_, ?_, ?_, ?_⟩
  · simp [layer_norm_impl_out, emptyT, expect_contiguous_shape]
  · simp [layer_norm_impl_out, emptyT, expect_contiguous_shape, hnum]
  · simp [layer_norm_impl_out, emptyT]
  · simp [layer_norm_impl_out, emptyT, numel]
  · simp [layer_norm_impl_out, emptyT]
  · simp [layer_norm_impl_out, emptyT, numel]
  · have hx := expect_contiguous_events input
    have hw := optExpectContiguous_events weight
    have hb := optExpectContiguous_events bias
    intro hmem
    simp only [layer_norm_impl_out, if_pos (Nat.le_refl 0), List.append_nil,
      List.mem_append, List.mem_cons, List.mem_singleton, List.not_mem_nil,
      or_false] at hmem
    rcases hmem with ((((h | h) | h) | h) | h)
    · exact absurd (hx _ h) (by decide)
    · exact absurd (hw _ h) (by decide)
    · exact absurd (hb _ h) (by decide)
    · rcases h with h | h <;> exact absurd h (by decide)
    · exact absurd h (by decide)

/-- Witness for C6: a concrete valid degenerate call (`M = 0`). -/
theorem C6_thm_witness :
    check_layer_norm_inputs [0, 2] [2] none none = Except.ok (0, 2)
    ∧ (∃ Y mean rstd tr,
        _layer_norm (fun q => q) 0 ⟨[0, 2], [], true⟩ [2] none none 1
          = (Except.ok (Y, mean, rstd), tr)
        ∧ Y.shape = [0, 2] ∧ Y.data = []
        ∧ mean.shape = [0] ∧ mean.data = []
        ∧ rstd.shape = [0] ∧ rstd.data = []
        ∧ Event.forwardKernel ∉ tr) :=
  ⟨by decide,
   C6_thm (fun q => q) 0 ⟨[0, 2], [], true⟩ [2] none none 1 0 2 (by decide) (by decide)⟩

/-- **C9** (confirmed): the public entry point ignores its deprecated
trailing `cudnn_enable` boolean — the result is identical for the flag
true and false, and both equal the first element of the native forward
operation's result triple, as does `layer_norm_new`. -/
theorem C9_thm (rsqrt : ℚ → ℚ) (uninit : ℚ) (input : Tensor) (ns : Shape)
    (weight bias : Option Tensor) (eps : ℚ) (f1 f2 : Bool) :
    layer_norm rsqrt uninit input ns weight bias eps f1
      = layer_norm rsqrt uninit input ns weight bias eps f2
    ∧ (layer_norm rsqrt uninit input ns weight bias eps f1).1
      = ((_layer_norm rsqrt uninit input ns weight bias eps).1).map (fun t => t.1)
    ∧ layer_norm rsqrt uninit input ns weight bias eps f1
      = layer_norm_new rsqrt uninit input ns weight bias eps :=
  ⟨rfl, rfl, rfl⟩

/-- A successful reduced-gradient allocation, given that a requested
parameter is present. -/
theorem allocReducedGrad_ok (uninit : ℚ) (flag : Bool) (src : Option Tensor) (M : Nat)
    (h : flag = true → src.isSome = true) :
    ∃ r tr, allocReducedGrad uninit flag src M = (Except.ok r, tr)
      ∧ r.isSome = flag
      ∧ (∀ g, src = some g → flag = true →
          r = some (if 0 < M then emptyT uninit g.shape else zerosT g.shape))
      ∧ ∀ e ∈ tr, e = Event.alloc true ∨ e = Event.alloc false := by
  cases flag with
  | false => exact ⟨none, [], rfl, rfl, by simp, by simp⟩
  | true =>
    cases src with
    | none => exact absurd (h rfl) (by decide)
    | some g =>
      by_cases hM : 0 < M
      · exact ⟨some (emptyT uninit g.shape), [Event.alloc false],
          by simp [allocReducedGrad, hM], rfl, by simp [hM], by simp⟩
      · exact ⟨some (zerosT g.shape), [Event.alloc true],
          by simp [allocReducedGrad, hM], rfl, by simp [hM], by simp⟩

/-- Characterization of the backward orchestrator on a validated call
with parameters present where their gradients are requested: all three
buffers are allocated masked (`dX` uninitialised of the input's shape;
`dgamma`/`dbeta` uninitialised when `M > 0` and zero-filled when
`M <= 0`), and the backward kernel runs exactly when `M > 0`,
consuming those buffers. -/
theorem layer_norm_backward_char (bval : Nat → Nat → ℚ) (uninit : ℚ)
    (dY input : Tensor) (ns : Shape) (mean rstd : Tensor)
    (weight bias : Option Tensor) (mask : Bool × Bool × Bool) (M N : Nat)
    (hck : check_layer_norm_inputs input.shape ns weight bias = Except.ok (M, N))
    (hw : mask.2.1 = true → weight.isSome = true)
    (hb : mask.2.2 = true → bias.isSome = true) :
    ∃ dX0 dgamma0 dbeta0 trA,
      layer_norm_backward bval uninit dY input ns mean rstd weight bias mask
        = (if 0 < M
           then (Except.ok (LayerNormBackwardKernel bval dY (expect_contiguous input).1
                  mean rstd (optExpectContiguous weight).1 M N dX0 dgamma0 dbeta0),
                 trA ++ [Event.backwardKernel])
           else (Except.ok (dX0, dgamma0, dbeta0), trA))
      ∧ dX0.isSome = mask.1 ∧ dgamma0.isSome = mask.2.1 ∧ dbeta0.isSome = mask.2.2
      ∧ (mask.1 = true → dX0 = some (emptyT uninit input.shape))
      ∧ (∀ w, weight = some w → mask.2.1 = true →
          dgamma0 = some (if 0 < M then emptyT uninit w.shape else zerosT w.shape))
      ∧ (∀ b2, bias = some b2 → mask.2.2 = true →
          dbeta0 = some (if 0 < M then emptyT uninit b2.shape else zerosT b2.shape))
      ∧ ∀ e ∈ trA, e = Event.copyContiguous ∨ e = Event.alloc true
          ∨ e = Event.alloc false := by
  have hw2 : mask.2.1 = true → ((optExpectContiguous weight).1).isSome = true := by
    rw [optExpectContiguous_isSome]; exact hw
  have hb2 : mask.2.2 = true → ((optExpectContiguous bias).1).isSome = true := by
    rw [optExpectContiguous_isSome]; exact hb
  obtain ⟨dg, tg, hgeq, hgsome, hgval, hgev⟩ :=
    allocReducedGrad_ok uninit mask.2.1 (optExpectContiguous weight).1 M hw2
  obtain ⟨db, tb, hbeq, hbsome, hbval, hbev⟩ :=
    allocReducedGrad_ok uninit mask.2.2 (optExpectContiguous bias).1 M hb2
  refine ⟨(if mask.1 then (some (emptyT uninit (expect_contiguous input).1.shape),
      [Event.alloc false]) else (none, [])).1, dg, db,
    (expect_contiguous input).2 ++ (optExpectContiguous weight).2
      ++ (optExpectContiguous bias).2
      ++ (if mask.1 then (some (emptyT uninit (expect_contiguous input).1.shape),
          [Event.alloc false]) else (none, [])).2 ++ tg ++ tb,
    ?_, ?_, hgsome, hbsome, ?_, ?_, ?_, ?_⟩
  · unfold layer_norm_backward
    rw [hck]
    simp only []
    rw [hgeq, hbeq]
  · cases hm : mask.1 <;> simp [hm]
  · intro h1
    simp [h1, expect_contiguous_shape]
  · intro w hwv h1
    have h2 := hgval (expect_contiguous w).1 (by rw [hwv, optExpectContiguous_some]) h1
    rwa [expect_contiguous_shape] at h2
  · intro b2 hbv h1
    have h2 := hbval (expect_contiguous b2).1 (by rw [hbv, optExpectContiguous_some]) h1
    rwa [expect_contiguous_shape] at h2
  · intro e he
    simp only [List.mem_append] at he
    rcases he with ((((h | h) | h) | h) | h) | h
    · exact Or.inl (expect_contiguous_events input e h)
    · exact Or.inl (optExpectContiguous_events weight e h)
    · exact Or.inl (optExpectContiguous_events bias e h)
    · cases hm : mask.1 <;> simp [hm] at h
      exact Or.inr (Or.inr h)
    · rcases hgev e h with h1 | h1
      · exact Or.inr (Or.inl h1)
      · exact Or.inr (Or.inr h1)
    · rcases hbev e h with h1 | h1
      · exact Or.inr (Or.inl h1)
      · exact Or.inr (Or.inr h1)

theorem optMap_isSome (f : Tensor → Tensor) (o : Option Tensor) :
    (o.map f).isSome = o.isSome := by
  cases o <;> rfl

theorem eq_none_of_isSome_false {o : Option Tensor} (h : o.isSome = false) : o = none := by
  cases o with
  | none => rfl
  | some t => exact absurd h (by simp)

/-- **C2** (counterexample): a valid backward call with `M = 2 > 0` and
all three gradient-mask flags false still invokes the backward kernel —
the source guards the invocation only by `M > 0`, never by the mask. -/
theorem C2_cex :
    layer_norm_backward (fun _ _ => 0) 0 ⟨[2, 3], List.replicate 6 0, true⟩
        ⟨[2, 3], [1, 2, 3, 4, 5, 6], true⟩ [3] ⟨[2], [2, 5], true⟩ ⟨[2], [1, 1], true⟩
        none none (false, false, false)
      = (Except.ok (none, none, none), [Event.backwardKernel]) := by decide

/-- **C2** (amended): for every valid backward call (with parameters
present where their gradients are requested), the backward kernel is
invoked if and only if `M > 0`, irrespective of the gradient mask. -/
theorem C2_thm (bval : Nat → Nat → ℚ) (uninit : ℚ) (dY input : Tensor) (ns : Shape)
    (mean rstd : Tensor) (weight bias : Option Tensor) (mask : Bool × Bool × Bool)
    (M N : Nat)
    (hck : check_layer_norm_inputs input.shape ns weight bias = Except.ok (M, N))
    (hw : mask.2.1 = true → weight.isSome = true)
    (hb : mask.2.2 = true → bias.isSome = true) :
    (Event.backwardKernel
        ∈ (layer_norm_backward bval uninit dY input ns mean rstd weight bias mask).2)
      ↔ 0 < M := by
  obtain ⟨dX0, dg, db, trA, heq, -, -, -, -, -, -, hev⟩ :=
    layer_norm_backward_char bval uninit dY input ns mean rstd weight bias mask M N
      hck hw hb
  rw [heq]
  by_cases hM : 0 < M
  · simp [hM]
  · simp only [if_neg hM]
    constructor
    · intro hmem
      rcases hev _ hmem with h | h | h <;> exact absurd h (by decide)
    · intro h
      exact absurd h hM
/-- Witness for C2: a concrete valid call with `M = 2`, requesting only
the input gradient; the kernel invocation is recorded. -/
theorem C2_thm_witness :
    check_layer_norm_inputs [2, 3] [3] none none = Except.ok (2, 3)
    ∧ ((Event.backwardKernel ∈ (layer_norm_backward (fun _ _ => 0) 0
          ⟨[2, 3], List.replicate 6 0, true⟩ ⟨[2, 3], [1, 2, 3, 4, 5, 6], true⟩ [3]
          ⟨[2], [2, 5], true⟩ ⟨[2], [1, 1], true⟩ none none (true, false, false)).2)
        ↔ 0 < 2) :=
  ⟨by decide,
   C2_thm (fun _ _ => 0) 0 ⟨[2, 3], List.replicate 6 0, true⟩
     ⟨[2, 3], [1, 2, 3, 4, 5, 6], true⟩ [3] ⟨[2], [2, 5], true⟩ ⟨[2], [1, 1], true⟩
     none none (true, false, false) 2 3 (by decide) (by decide) (by decide)⟩

/-- **C4** (confirmed): on a valid backward call with `M <= 0`, a
requested scale/bias gradient is returned as a zero-filled buffer of
the parameter's shape, the backward kernel is never invoked, and a
requested input gradient is the untouched allocator buffer of the
input's (zero-element) shape. -/
theorem C4_thm (bval : Nat → Nat → ℚ) (uninit : ℚ) (dY input : Tensor) (ns : Shape)
    (mean rstd : Tensor) (weight bias : Option Tensor) (mask : Bool × Bool × Bool)
    (M N : Nat)
    (hck : check_layer_norm_inputs input.shape ns weight bias = Except.ok (M, N))
    (hM : M ≤ 0)
    (hw : mask.2.1 = true → weight.isSome = true)
    (hb : mask.2.2 = true → bias.isSome = true) :
    ∃ dX dgamma dbeta tr,
      layer_norm_backward bval uninit dY input ns mean rstd weight bias mask
        = (Except.ok (dX, dgamma, dbeta), tr)
      ∧ Event.backwardKernel ∉ tr
      ∧ (mask.1 = true → dX = some (emptyT uninit input.shape)
          ∧ ∀ t, dX = some t → t.shape = input.shape ∧ t.data = [])
      ∧ (∀ w, weight = some w → mask.2.1 = true →
          dgamma = some (zerosT w.shape) ∧ ∀ q ∈ (zerosT w.shape).data, q = 0)
      ∧ (∀ b2, bias = some b2 → mask.2.2 = true →
          dbeta = some (zerosT b2.shape) ∧ ∀ q ∈ (zerosT b2.shape).data, q = 0) := by
  have hM0 : ¬0 < M := by omega
  have hnum : numel input.shape = 0 := by
    have h1 := check_ok_mul hck
    have h2 : M = 0 := Nat.le_zero.mp hM
    rw [h2] at h1
    simpa using h1.symm
  obtain ⟨dX0, dg, db, trA, heq, -, -, -, hdx, hdg, hdb, hev⟩ :=
    layer_norm_backward_char bval uninit dY input ns mean rstd weight bias mask M N
      hck hw hb
  rw [if_neg hM0] at heq
  refine ⟨dX0, dg, db, trA, heq, ?_, ?_, ?_, ?_⟩
  · intro hmem
    rcases hev _ hmem with h | h | h <;> exact absurd h (by decide)
  · intro h1
    refine ⟨hdx h1, ?_⟩
    intro t ht
    rw [hdx h1] at ht
    injection ht with ht2
    rw [← ht2]
    exact ⟨rfl, by simp [emptyT, hnum]⟩
  · intro w hwv h1
    have h2 := hdg w hwv h1
    rw [if_neg hM0] at h2
    exact ⟨h2, fun q hq => List.eq_of_mem_replicate hq⟩
  · intro b2 hbv h1
    have h2 := hdb b2 hbv h1
    rw [if_neg hM0] at h2
    exact ⟨h2, fun q hq => List.eq_of_mem_replicate hq⟩

/-- Witness for C4: a concrete degenerate backward call (`M = 0`) with
all gradients requested and both parameters present. -/
theorem C4_thm_witness :
    check_layer_norm_inputs [0, 2] [2] (some ⟨[2], [3, 4], true⟩) (some ⟨[2], [5, 6], true⟩)
        = Except.ok (0, 2)
    ∧ (∃ dX dgamma dbeta tr,
        layer_norm_backward (fun _ _ => 0) 0 ⟨[0, 2], [], true⟩ ⟨[0, 2], [], true⟩ [2]
            ⟨[0], [], true⟩ ⟨[0], [], true⟩ (some ⟨[2], [3, 4], true⟩)
            (some ⟨[2], [5, 6], true⟩) (true, true, true)
          = (Except.ok (dX, dgamma, dbeta), tr)
        ∧ Event.backwardKernel ∉ tr
        ∧ ((true, true, true).1 = true → dX = some (emptyT 0 [0, 2])
            ∧ ∀ t, dX = some t → t.shape = [0, 2] ∧ t.data = [])
        ∧ (∀ w, (some (⟨[2], [3, 4], true⟩ : Tensor)) = some w → (true, true, true).2.1 = true →
            dgamma = some (zerosT w.shape) ∧ ∀ q ∈ (zerosT w.shape).data, q = 0)
        ∧ (∀ b2, (some (⟨[2], [5, 6], true⟩ : Tensor)) = some b2 → (true, true, true).2.2 = true →
            dbeta = some (zerosT b2.shape) ∧ ∀ q ∈ (zerosT b2.shape).data, q = 0)) :=
  ⟨by decide,
   C4_thm (fun _ _ => 0) 0 ⟨[0, 2], [], true⟩ ⟨[0, 2], [], true⟩ [2]
     ⟨[0], [], true⟩ ⟨[0], [], true⟩ (some ⟨[2], [3, 4], true⟩)
     (some ⟨[2], [5, 6], true⟩) (true, true, true) 0 2 (by decide) (by decide)
     (by decide) (by decide)⟩

/-- **C5** (confirmed): on every valid backward call, for each of the 8
gradient masks, exactly the outputs whose flag is true come back
non-absent, and each output whose flag is false is the absent sentinel
`none` (structurally distinct from any zero-filled tensor). -/
theorem C5_thm (bval : Nat → Nat → ℚ) (uninit : ℚ) (dY input : Tensor) (ns : Shape)
    (mean rstd : Tensor) (weight bias : Option Tensor) (mask : Bool × Bool × Bool)
    (M N : Nat)
    (hck : check_layer_norm_inputs input.shape ns weight bias = Except.ok (M, N))
    (hw : mask.2.1 = true → weight.isSome = true)
    (hb : mask.2.2 = true → bias.isSome = true) :
    ∃ dX dgamma dbeta tr,
      layer_norm_backward bval uninit dY input ns mean rstd weight bias mask
        = (Except.ok (dX, dgamma, dbeta), tr)
      ∧ dX.isSome = mask.1 ∧ dgamma.isSome = mask.2.1 ∧ dbeta.isSome = mask.2.2
      ∧ (mask.1 = false → dX = none)
      ∧ (mask.2.1 = false → dgamma = none)
      ∧ (mask.2.2 = false → dbeta = none) := by
  obtain ⟨dX0, dg, db, trA, heq, h1, h2, h3, -, -, -, -⟩ :=
    layer_norm_backward_char bval uninit dY input ns mean rstd weight bias mask M N
      hck hw hb
  by_cases hM : 0 < M
  · rw [if_pos hM] at heq
    refine ⟨_, _, _, _, heq, ?_, ?_, ?_, ?_, ?_, ?_⟩
    · rw [optMap_isSome]
      exact h1
    · rw [optMap_isSome]
      exact h2
    · rw [optMap_isSome]
      exact h3
    · intro hf
      rw [eq_none_of_isSome_false (h1.trans hf)]
      rfl
    · intro hf
      rw [eq_none_of_isSome_false (h2.trans hf)]
      rfl
    · intro hf
      rw [eq_none_of_isSome_false (h3.trans hf)]
      rfl
  · rw [if_neg hM] at heq
    refine ⟨_, _, _, _, heq, h1, h2, h3, ?_, ?_, ?_⟩
    · intro hf
      exact eq_none_of_isSome_false (h1.trans hf)
    · intro hf
      exact eq_none_of_isSome_false (h2.trans hf)
    · intro hf
      exact eq_none_of_isSome_false (h3.trans hf)

/-- Witness for C5: a concrete valid call with mask
`(true, false, true)`: input and bias gradients come back non-absent,
the scale gradient is absent. -/
theorem C5_thm_witness :
    check_layer_norm_inputs [2, 3] [3] none (some ⟨[3], [1, 2, 3], true⟩)
        = Except.ok (2, 3)
    ∧ (∃ dX dgamma dbeta tr,
        layer_norm_backward (fun _ _ => 0) 0 ⟨[2, 3], List.replicate 6 0, true⟩
            ⟨[2, 3], [1, 2, 3, 4, 5, 6], true⟩ [3] ⟨[2], [2, 5], true⟩
            ⟨[2], [1, 1], true⟩ none (some ⟨[3], [1, 2, 3], true⟩) (true, false, true)
          = (Except.ok (dX, dgamma, dbeta), tr)
        ∧ dX.isSome = (true, false, true).1
        ∧ dgamma.isSome = (true, false, true).2.1
        ∧ dbeta.isSome = (true, false, true).2.2
        ∧ ((true, false, true).1 = false → dX = none)
        ∧ ((true, false, true).2.1 = false → dgamma = none)
        ∧ ((true, false, true).2.2 = false → dbeta = none)) :=
  ⟨by decide,
   C5_thm (fun _ _ => 0) 0 ⟨[2, 3], List.replicate 6 0, true⟩
     ⟨[2, 3], [1, 2, 3, 4, 5, 6], true⟩ [3] ⟨[2], [2, 5], true⟩ ⟨[2], [1, 1], true⟩
     none (some ⟨[3], [1, 2, 3], true⟩) (true, false, true) 2 3 (by decide)
     (by decide) (by decide)⟩

/-- The per-element normalized value shared by the direct kernel and
the batch-norm collaborator: group mean subtracted, scaled by the
inverse standard deviation. -/
def normAt (rsqrt : ℚ → ℚ) (d : List ℚ) (N : Nat) (eps : ℚ) (k : Nat) : ℚ :=
  (d.getD k 0 - rowMean d N (k / N)) * rsqrt (rowVar d N (k / N) + eps)

theorem native_batch_norm_view (rsqrt : ℚ → ℚ) (input : Tensor) (M N : Nat) (eps : ℚ) :
    native_batch_norm rsqrt (Tensor.view input [1, M, N]) eps
      = (⟨[1, M, N], (List.range (M * N)).map (normAt rsqrt input.data N eps), true⟩,
         ⟨[M], (List.range M).map (fun i => rowMean input.data N i), true⟩,
         ⟨[M], (List.range M).map (fun i => rsqrt (rowVar input.data N i + eps)), true⟩) :=
  rfl

/-- Characterization of the fallback path on a validated call with
`M > 0`: the input is viewed as `{1, M, N}`, the batch-norm
collaborator runs, the output is viewed back and the three-way affine
branch applied, the statistics are viewed broadcastable. -/
theorem math_ok_eq (rsqrt : ℚ → ℚ) (input : Tensor) (ns : Shape)
    (weight bias : Option Tensor) (eps : ℚ) (M N : Nat)
    (hck : check_layer_norm_inputs input.shape ns weight bias = Except.ok (M, N))
    (hM : 0 < M) :
    math_native_layer_norm rsqrt input ns weight bias eps
      = (Except.ok
          ((match weight, bias with
            | some w, some b => addcmulT b (Tensor.view (native_batch_norm rsqrt
                (Tensor.view input [1, M, N]) eps).1 input.shape) w
            | some w, none => mulT (Tensor.view (native_batch_norm rsqrt
                (Tensor.view input [1, M, N]) eps).1 input.shape) w
            | none, some b => addT (Tensor.view (native_batch_norm rsqrt
                (Tensor.view input [1, M, N]) eps).1 input.shape) b
            | none, none => Tensor.view (native_batch_norm rsqrt
                (Tensor.view input [1, M, N]) eps).1 input.shape),
           Tensor.view (native_batch_norm rsqrt (Tensor.view input [1, M, N]) eps).2.1
             (statShape input.shape ns.length),
           Tensor.view (native_batch_norm rsqrt (Tensor.view input [1, M, N]) eps).2.2
             (statShape input.shape ns.length)),
         (expect_contiguous input).2 ++ (optExpectContiguous weight).2
           ++ [Event.batchNormCall]) := by
  have hmul := check_ok_mul hck
  have hMne : M ≠ 0 := by omega
  have hmod : numel input.shape % M = 0 := by
    rw [← hmul]
    exact Nat.mul_mod_right M N
  have hdiv : numel input.shape / M = N := by
    rw [← hmul]
    exact Nat.mul_div_cancel_left N hM
  have hview : viewInfer3 input M = some [1, M, N] := by
    unfold viewInfer3
    rw [if_pos ⟨hMne, hmod⟩, hdiv]
  unfold math_native_layer_norm
  rw [hck]
  simp only []
  rw [hview]
  cases weight <;> cases bias <;> rfl

/-- **C10** (confirmed): the fallback path has no degenerate-batch
short-circuit: on every valid call with `M > 0` it reshapes and invokes
the batch-norm collaborator, and when `M = 0` the inferred dimension of
the `{1, M, -1}` view is undefined, so the call fails with a reshape
error instead of returning an early empty result — unlike the direct
forward path, which returns `ok` on the same input. -/
theorem C10_thm (rsqrt : ℚ → ℚ) (uninit : ℚ) (input : Tensor) (ns : Shape)
    (weight bias : Option Tensor) (eps : ℚ) (M N : Nat)
    (hck : check_layer_norm_inputs input.shape ns weight bias = Except.ok (M, N)) :
    (0 < M → Event.batchNormCall
        ∈ (math_native_layer_norm rsqrt input ns weight bias eps).2)
    ∧ (M = 0 → viewInfer3 input M = none
        ∧ (math_native_layer_norm rsqrt input ns weight bias eps).1
            = Except.error LNError.invalidReshape
        ∧ ∃ r tr, _layer_norm rsqrt uninit input ns weight bias eps
            = (Except.ok r, tr)) := by
  constructor
  · intro hM
    rw [math_ok_eq rsqrt input ns weight bias eps M N hck hM]
    simp
  · intro hM0
    have hvnone : viewInfer3 input M = none := by
      unfold viewInfer3
      rw [if_neg]
      intro h
      exact h.1 hM0
    refine ⟨hvnone, ?_, ?_⟩
    · unfold math_native_layer_norm
      rw [hck]
      simp only []
      rw [hvnone]
    · rw [_layer_norm_ok_eq rsqrt uninit input ns weight bias eps M N hck]
      exact ⟨_, _, rfl⟩

/-- Witness for C10: the concrete degenerate input of shape `[0, 2]`;
the fallback fails with the reshape error while the direct path
returns successfully. -/
theorem C10_thm_witness :
    check_layer_norm_inputs [0, 2] [2] none none = Except.ok (0, 2)
    ∧ ((0 < 0 → Event.batchNormCall
          ∈ (math_native_layer_norm (fun q => q) ⟨[0, 2], [], true⟩ [2] none none 1).2)
      ∧ (0 = 0 → viewInfer3 (⟨[0, 2], [], true⟩ : Tensor) 0 = none
          ∧ (math_native_layer_norm (fun q => q) ⟨[0, 2], [], true⟩ [2] none none 1).1
              = Except.error LNError.invalidReshape
          ∧ ∃ r tr, _layer_norm (fun q => q) 0 ⟨[0, 2], [], true⟩ [2] none none 1
              = (Except.ok r, tr))) :=
  ⟨by decide,
   C10_thm (fun q => q) 0 ⟨[0, 2], [], true⟩ [2] none none 1 0 2 (by decide)⟩

theorem expect_contiguous_elemAt (t : Tensor) (k : Nat) :
    elemAt (expect_contiguous t).1 k = elemAt t k := by
  unfold elemAt
  rw [expect_contiguous_data]

theorem elemAt_addcmulT (b out w : Tensor) (k : Nat) (h : k < numel out.shape) :
    elemAt (addcmulT b out w) k
      = broadcastAt b k + elemAt out k * broadcastAt w k :=
  getD_range_map _ _ _ _ h

theorem elemAt_mulT (out w : Tensor) (k : Nat) (h : k < numel out.shape) :
    elemAt (mulT out w) k = elemAt out k * broadcastAt w k :=
  getD_range_map _ _ _ _ h

theorem elemAt_addT (out b : Tensor) (k : Nat) (h : k < numel out.shape) :
    elemAt (addT out b) k = elemAt out k + broadcastAt b k :=
  getD_range_map _ _ _ _ h

theorem elemAt_bn_view (rsqrt : ℚ → ℚ) (input : Tensor) (M N : Nat) (eps : ℚ)
    (k : Nat) (h : k < M * N) :
    elemAt (Tensor.view (native_batch_norm rsqrt (Tensor.view input [1, M, N]) eps).1
        input.shape) k
      = normAt rsqrt input.data N eps k :=
  getD_range_map _ _ _ _ h

/-- **C7** (confirmed): in the fallback path the affine transform is
applied elementwise after normalization, against the original-shaped
normalized output, by exactly the three-way branch of the source: one
fused `bias + out * scale` pass when both parameters are present,
`out * scale` when only scale is present, `out + bias` when only bias
is present, and the normalized output unchanged when neither is. -/
theorem C7_thm (rsqrt : ℚ → ℚ) (input : Tensor) (ns : Shape)
    (weight bias : Option Tensor) (eps : ℚ) (M N : Nat)
    (hck : check_layer_norm_inputs input.shape ns weight bias = Except.ok (M, N))
    (hM : 0 < M) :
    ∃ out mean rstd tr,
      math_native_layer_norm rsqrt input ns weight bias eps
        = (Except.ok (out, mean, rstd), tr)
      ∧ out.shape = input.shape
      ∧ (∀ w b2, weight = some w → bias = some b2 → ∀ k, k < M * N →
          elemAt out k = elemAt b2 (k % N)
            + normAt rsqrt input.data N eps k * elemAt w (k % N))
      ∧ (∀ w, weight = some w → bias = none → ∀ k, k < M * N →
          elemAt out k = normAt rsqrt input.data N eps k * elemAt w (k % N))
      ∧ (∀ b2, weight = none → bias = some b2 → ∀ k, k < M * N →
          elemAt out k = normAt rsqrt input.data N eps k + elemAt b2 (k % N))
      ∧ (weight = none → bias = none → ∀ k, k < M * N →
          elemAt out k = normAt rsqrt input.data N eps k) := by
  have hmul := check_ok_mul hck
  have hns : ns.prod = N := check_ok_nsprod hck
  have hnN : numel ns = N := hns
  obtain ⟨-, -, -, -, hwm, hbm⟩ := check_ok_inv hck
  rw [math_ok_eq rsqrt input ns weight bias eps M N hck hM]
  refine ⟨_, _, _, _, rfl, ?_, ?_, ?_, ?_, ?_⟩
  · cases weight <;> cases bias <;> rfl
  · intro w b2 hwv hbv k hk
    subst hwv
    subst hbv
    have hb2 : b2.shape = ns := shapeMatches_some hbm
    have hw2 : w.shape = ns := shapeMatches_some hwm
    have hout0 : k < numel (Tensor.view (native_batch_norm rsqrt
        (Tensor.view input [1, M, N]) eps).1 input.shape).shape := by
      show k < numel input.shape
      omega
    rw [elemAt_addcmulT _ _ _ _ hout0, elemAt_bn_view rsqrt input M N eps k hk]
    simp only [broadcastAt, Tensor.view, hb2, hw2, hnN]
  · intro w hwv hbv k hk
    subst hwv
    subst hbv
    have hw2 : w.shape = ns := shapeMatches_some hwm
    have hout0 : k < numel (Tensor.view (native_batch_norm rsqrt
        (Tensor.view input [1, M, N]) eps).1 input.shape).shape := by
      show k < numel input.shape
      omega
    rw [elemAt_mulT _ _ _ hout0, elemAt_bn_view rsqrt input M N eps k hk]
    simp only [broadcastAt, Tensor.view, hw2, hnN]
  · intro b2 hwv hbv k hk
    subst hwv
    subst hbv
    have hb2 : b2.shape = ns := shapeMatches_some hbm
    have hout0 : k < numel (Tensor.view (native_batch_norm rsqrt
        (Tensor.view input [1, M, N]) eps).1 input.shape).shape := by
      show k < numel input.shape
      omega
    rw [elemAt_addT _ _ _ hout0, elemAt_bn_view rsqrt input M N eps k hk]
    simp only [broadcastAt, Tensor.view, hb2, hnN]
  · intro hwv hbv k hk
    subst hwv
    subst hbv
    exact elemAt_bn_view rsqrt input M N eps k hk

/-- Witness for C7: a concrete call with both scale and bias present. -/
theorem C7_thm_witness :
    check_layer_norm_inputs [2, 3] [3] (some ⟨[3], [2, 3, 4], true⟩)
        (some ⟨[3], [5, 6, 7], true⟩) = Except.ok (2, 3)
    ∧ (∃ out mean rstd tr,
        math_native_layer_norm (fun q => q) ⟨[2, 3], [1, 2, 3, 4, 5, 6], true⟩ [3]
            (some ⟨[3], [2, 3, 4], true⟩) (some ⟨[3], [5, 6, 7], true⟩) 1
          = (Except.ok (out, mean, rstd), tr)
        ∧ out.shape = [2, 3]
        ∧ (∀ w b2, (some (⟨[3], [2, 3, 4], true⟩ : Tensor)) = some w →
            (some (⟨[3], [5, 6, 7], true⟩ : Tensor)) = some b2 → ∀ k, k < 2 * 3 →
            elemAt out k = elemAt b2 (k % 3)
              + normAt (fun q => q) [1, 2, 3, 4, 5, 6] 3 1 k * elemAt w (k % 3))
        ∧ (∀ w, (some (⟨[3], [2, 3, 4], true⟩ : Tensor)) = some w →
            (some (⟨[3], [5, 6, 7], true⟩ : Tensor)) = none → ∀ k, k < 2 * 3 →
            elemAt out k = normAt (fun q => q) [1, 2, 3, 4, 5, 6] 3 1 k * elemAt w (k % 3))
        ∧ (∀ b2, (some (⟨[3], [2, 3, 4], true⟩ : Tensor)) = none →
            (some (⟨[3], [5, 6, 7], true⟩ : Tensor)) = some b2 → ∀ k, k < 2 * 3 →
            elemAt out k = normAt (fun q => q) [1, 2, 3, 4, 5, 6] 3 1 k + elemAt b2 (k % 3))
        ∧ ((some (⟨[3], [2, 3, 4], true⟩ : Tensor)) = none →
            (some (⟨[3], [5, 6, 7], true⟩ : Tensor)) = none → ∀ k, k < 2 * 3 →
            elemAt out k = normAt (fun q => q) [1, 2, 3, 4, 5, 6] 3 1 k)) :=
  ⟨by decide,
   C7_thm (fun q => q) ⟨[2, 3], [1, 2, 3, 4, 5, 6], true⟩ [3]
     (some ⟨[3], [2, 3, 4], true⟩) (some ⟨[3], [5, 6, 7], true⟩) 1 2 3
     (by decide) (by decide)⟩

/-- **C8** (confirmed): on every call accepted by both forward paths
(valid shapes, `M > 0`), the BatchNormFallback returns exactly the same
output, mean, and rstd as the direct-kernel forward path — exact
equality in the rational model, with the same abstract inverse square
root on both sides. -/
theorem native_batch_norm_mk (rsqrt : ℚ → ℚ) (d : List ℚ) (c : Bool)
    (M N : Nat) (eps : ℚ) :
    native_batch_norm rsqrt ⟨[1, M, N], d, c⟩ eps
      = (⟨[1, M, N], (List.range (M * N)).map (normAt rsqrt d N eps), true⟩,
         ⟨[M], (List.range M).map (fun i => rowMean d N i), true⟩,
         ⟨[M], (List.range M).map (fun i => rsqrt (rowVar d N i + eps)), true⟩) :=
  rfl

/-- **C8** (confirmed): on every call accepted by both forward paths
(valid shapes, `M > 0`), the BatchNormFallback returns exactly the same
output, mean, and rstd as the direct-kernel forward path — exact
equality in the rational model, with the same abstract inverse square
root on both sides. -/
theorem C8_thm (rsqrt : ℚ → ℚ) (uninit : ℚ) (input : Tensor) (ns : Shape)
    (weight bias : Option Tensor) (eps : ℚ) (M N : Nat)
    (hck : check_layer_norm_inputs input.shape ns weight bias = Except.ok (M, N))
    (hM : 0 < M) :
    ∃ out mean rstd trA trB,
      _layer_norm rsqrt uninit input ns weight bias eps
        = (Except.ok (out, mean, rstd), trA)
      ∧ math_native_layer_norm rsqrt input ns weight bias eps
        = (Except.ok (out, mean, rstd), trB) := by
  have hmul := check_ok_mul hck
  have hns : ns.prod = N := check_ok_nsprod hck
  have hnN : numel ns = N := hns
  obtain ⟨-, -, -, -, hwm, hbm⟩ := check_ok_inv hck
  have hle : ¬M ≤ 0 := by omega
  rw [_layer_norm_ok_eq rsqrt uninit input ns weight bias eps M N hck,
    math_ok_eq rsqrt input ns weight bias eps M N hck hM]
  simp only [layer_norm_impl_out, if_neg hle]
  refine ⟨_, _, _, _,
    (expect_contiguous input).2 ++ (optExpectContiguous weight).2
      ++ [Event.batchNormCall], rfl, ?_⟩
  refine congrArg₂ Prod.mk (congrArg Except.ok ?_) rfl
  refine congrArg₂ Prod.mk ?_ (congrArg₂ Prod.mk ?_ ?_)
  · cases weight with
    | none =>
      cases bias with
      | none =>
        simp only [LayerNormKernel, Tensor.view, native_batch_norm_mk,
          optExpectContiguous, Tensor.mk.injEq]
        refine ⟨(expect_contiguous_shape input).symm, ?_, by trivial⟩
        apply List.map_congr_left
        intro k hk
        simp only [normAt, scaleAt, biasAt, elemAt, expect_contiguous_data]
        ring
      | some b2 =>
        have hb2 : b2.shape = ns := shapeMatches_some hbm
        simp only [addT, LayerNormKernel, Tensor.view, native_batch_norm_mk,
          optExpectContiguous, Tensor.mk.injEq]
        refine ⟨(expect_contiguous_shape input).symm, ?_, by trivial⟩
        rw [← hmul]
        apply List.map_congr_left
        intro k hk
        rw [List.mem_range] at hk
        simp only [elemAt, broadcastAt, normAt, scaleAt, biasAt,
          expect_contiguous_data, hb2, hnN, getD_range_map _ _ _ _ hk]
        ring
    | some w =>
      have hw2 : w.shape = ns := shapeMatches_some hwm
      cases bias with
      | none =>
        simp only [mulT, LayerNormKernel, Tensor.view, native_batch_norm_mk,
          optExpectContiguous, Tensor.mk.injEq]
        refine ⟨(expect_contiguous_shape input).symm, ?_, by trivial⟩
        rw [← hmul]
        apply List.map_congr_left
        intro k hk
        rw [List.mem_range] at hk
        simp only [elemAt, broadcastAt, normAt, scaleAt, biasAt,
          expect_contiguous_data, hw2, hnN, getD_range_map _ _ _ _ hk]
        ring
      | some b2 =>
        have hb2 : b2.shape = ns := shapeMatches_some hbm
        simp only [addcmulT, LayerNormKernel, Tensor.view, native_batch_norm_mk,
          optExpectContiguous, Tensor.mk.injEq]
        refine ⟨(expect_contiguous_shape input).symm, ?_, by trivial⟩
        rw [← hmul]
        apply List.map_congr_left
        intro k hk
        rw [List.mem_range] at hk
        simp only [elemAt, broadcastAt, normAt, scaleAt, biasAt,
          expect_contiguous_data, hb2, hw2, hnN, getD_range_map _ _ _ _ hk]
        ring
  · simp only [LayerNormKernel, Tensor.view, native_batch_norm_mk,
      expect_contiguous_shape, expect_contiguous_data]
  · simp only [LayerNormKernel, Tensor.view, native_batch_norm_mk,
      expect_contiguous_shape, expect_contiguous_data]

/-- Witness for C8: the two paths agree on a concrete `2 x 3` input
with scale and bias present. -/
theorem C8_thm_witness :
    check_layer_norm_inputs [2, 3] [3] (some ⟨[3], [2, 3, 4], true⟩)
        (some ⟨[3], [5, 6, 7], true⟩) = Except.ok (2, 3)
    ∧ (∃ out mean rstd trA trB,
        _layer_norm (fun q => q) 0 ⟨[2, 3], [1, 2, 3, 4, 5, 6], true⟩ [3]
            (some ⟨[3], [2, 3, 4], true⟩) (some ⟨[3], [5, 6, 7], true⟩) 1
          = (Except.ok (out, mean, rstd), trA)
        ∧ math_native_layer_norm (fun q => q) ⟨[2, 3], [1, 2, 3, 4, 5, 6], true⟩ [3]
            (some ⟨[3], [2, 3, 4], true⟩) (some ⟨[3], [5, 6, 7], true⟩) 1
          = (Except.ok (out, mean, rstd), trB)) :=
  ⟨by decide,
   C8_thm (fun q => q) 0 ⟨[2, 3], [1, 2, 3, 4, 5, 6], true⟩ [3]
     (some ⟨[3], [2, 3, 4], true⟩) (some ⟨[3], [5, 6, 7], true⟩) 1 2 3
     (by decide) (by decide)⟩

end LayerNorm
